import Mathlib

/-!
Shallow embedding of the CIFF parser in `src/ciff.py`.

A file is modelled as the byte stream `List Nat` handed to the parser
(`open` / `read` become list operations: `read(n)` is `take n` on the
not-yet-consumed suffix, and a short read is a list with fewer than the
requested elements).  Python `str` values are modelled as `List Char`
(`bytes.decode("ascii")` succeeds exactly on bytes below 128); the
`error_message` field, which is only ever compared against the empty
string, is kept as a Lean `String`.  `struct.unpack("Q", b)` is the
little-endian unsigned 64-bit value of the 8 bytes.  The `try/except`
of `parse_ciff_file` is modelled with `Except`: every `raise` carries
the message, the record as populated at that moment, and the value of
the `bytes_read` counter at that moment; the handler turns this into
the returned record with `is_valid := false` and the message stored.
-/

/-- A byte stream: the contents of the file, one `Nat` per byte. -/
abbrev ByteStream := List Nat

/-- `struct.unpack("Q", bs)[0]`: the 8 bytes as a little-endian unsigned
64-bit integer (byte 0 is least significant). -/
def unpackQ (bs : List Nat) : Nat :=
  bs.foldr (fun b acc => b + 256 * acc) 0

/-- `bytes.decode("ascii")` succeeds iff every byte is below 128. -/
def asciiOk (bs : List Nat) : Bool :=
  bs.all (fun b => b < 128)

/-- The characters produced by a successful `bytes.decode("ascii")`. -/
def asciiChars (bs : List Nat) : List Char :=
  bs.map (fun b => Char.ofNat b)

/-- Stand-in for the message of Python's `UnicodeDecodeError` (its exact
text names the offending byte and position; only its nonemptiness ever
matters to the program's contract). -/
def asciiErrMsg : String := "ascii codec cannot decode byte: ordinal not in range(128)"

/-- The `CIFF` record of `src/ciff.py`, with the default field values of
its constructor (`CIFF()` as called at the top of `parse_ciff_file`). -/
structure CIFF where
  magic : List Char := ['C', 'I', 'F', 'F']
  header_size : Nat := 0
  content_size : Nat := 0
  width : Nat := 0
  height : Nat := 0
  caption : List Char := []
  tags : List (List Char) := []
  pixels : List (Nat × Nat × Nat) := []
  is_valid : Bool := true
  error_message : String := ""
  deriving Repr, DecidableEq

/-- A raised exception as seen by the `except` block: the message
(`str(e)`), the record as populated when the exception was raised, and
the `bytes_read` counter at that moment. -/
abbrev PErr := String × CIFF × Nat

/-- The caption loop of `parse_ciff_file` (source lines 272-280):
`char` is the character just read, `acc` the caption so far, `stream`
the unread bytes, `n` the `bytes_read` counter.  Stops at the first
newline; a short read or a non-ASCII byte raises. -/
def captionLoop (char : Char) (acc : List Char) (stream : ByteStream) (n : Nat) :
    Except (String × Nat) (List Char × ByteStream × Nat) :=
  if char = '\n' then .ok (acc, stream, n)
  else
    match stream with
    | [] => .error ("Invalid image: caption", n)
    | b :: rest =>
        if 128 ≤ b then .error (asciiErrMsg, n + 1)
        else captionLoop (Char.ofNat b) (acc ++ [char]) rest (n + 1)

/-- The tag loop of `parse_ciff_file` (source lines 286-302): reads one
byte at a time while `bytes_read != header_size`; a newline raises, a
null byte closes the current tag, and the byte that makes `bytes_read`
reach `header_size` must be a null. -/
def tagLoop (hs : Nat) (tags : List (List Char)) (tag : List Char)
    (stream : ByteStream) (n : Nat) :
    Except (String × Nat) (List (List Char) × ByteStream × Nat) :=
  if n = hs then .ok (tags, stream, n)
  else
    match stream with
    | [] => .error ("Invalid image: tags", n)
    | b :: rest =>
        if 128 ≤ b then .error (asciiErrMsg, n + 1)
        else
          let char := Char.ofNat b
          if char = '\n' then .error ("Invalid image: tags", n + 1)
          else
            let tag2 := tag ++ [char]
            let p := if char = Char.ofNat 0 then (tags ++ [tag2], ([] : List Char))
                     else (tags, tag2)
            if n + 1 = hs ∧ char ≠ Char.ofNat 0 then .error ("Invalid image: tags", n + 1)
            else tagLoop hs p.1 p.2 rest (n + 1)

/-- The defensive re-check of `parse_ciff_file` (source lines 306-308):
`tag[-1]` on an empty string raises Python's IndexError. -/
def checkTags : List (List Char) → Except String Unit
  | [] => .ok ()
  | t :: ts =>
      match t.getLast? with
      | none => .error "string index out of range"
      | some c => if c = Char.ofNat 0 then checkTags ts else .error "Invalid image: tags"

/-- The pixel loop of `parse_ciff_file` (source lines 312-318): while
`bytes_read < header_size + content_size`, read exactly 3 bytes and
append them as one pixel.  On failure the pixels appended so far stay
in the record, so the error carries them. -/
def pixelLoop (target : Nat) (pixels : List (Nat × Nat × Nat))
    (stream : ByteStream) (n : Nat) :
    Except (String × List (Nat × Nat × Nat) × Nat)
      (List (Nat × Nat × Nat) × ByteStream × Nat) :=
  if n < target then
    match stream with
    | b0 :: b1 :: b2 :: rest => pixelLoop target (pixels ++ [(b0, b1, b2)]) rest (n + 3)
    | _ => .error ("Invalid image: content", pixels, n)
  else .ok (pixels, stream, n)

/-- The fixed-layout part of `parse_ciff_file` (source lines 198-262):
magic, header_size, content_size, width, height, and the checks made on
them.  On success returns the record so far, the `bytes_read` counter
(36) and the unread rest of the stream. -/
def parseFixed (s : ByteStream) : Except PErr (CIFF × Nat × ByteStream) :=
  let ciff : CIFF := {}
  let magic := s.take 4
  if magic.length ≠ 4 then .error ("Couldn\x27t read 4 magic bytes", ciff, 0)
  else if asciiOk magic then
    let ciff := { ciff with magic := asciiChars magic }
    if ciff.magic ≠ ['C', 'I', 'F', 'F'] then
      .error ("Error parsing magic bytes", { ciff with is_valid := false }, 4)
    else
      let s1 := s.drop 4
      let hsB := s1.take 8
      if hsB.length ≠ 8 then .error ("Invalid image format: header size", ciff, 4)
      else
        let ciff := { ciff with header_size := unpackQ hsB }
        if ciff.header_size < 38 then .error ("Invalid image format: header size", ciff, 12)
        else
          let s2 := s1.drop 8
          let csB := s2.take 8
          if csB.length ≠ 8 then .error ("Invalid image format: content size", ciff, 12)
          else
            let ciff := { ciff with content_size := unpackQ csB }
            let s3 := s2.drop 8
            let wB := s3.take 8
            if wB.length ≠ 8 then .error ("Invalid image format: width", ciff, 20)
            else
              let ciff := { ciff with width := unpackQ wB }
              let s4 := s3.drop 8
              let hB := s4.take 8
              if hB.length ≠ 8 then .error ("Invalid image format: height", ciff, 28)
              else
                let ciff := { ciff with height := unpackQ hB }
                if ciff.content_size ≠ ciff.width * ciff.height * 3 then
                  .error ("Invalid image format: content size not equal to width*height*3",
                    ciff, 36)
                else .ok (ciff, 36, s4.drop 8)
  else .error (asciiErrMsg, ciff, 4)

/-- The body of `parse_ciff_file` up to the `except` handler: either the
finished record with the final `bytes_read`, or the raised exception. -/
def parse_ciff_aux (s : ByteStream) : Except PErr (CIFF × Nat) :=
  match parseFixed s with
  | .error e => .error e
  | .ok (c0, n0, r0) =>
    match r0 with
    | [] => .error ("Invalid image format: caption format", c0, n0)
    | b :: r1 =>
      if 128 ≤ b then .error (asciiErrMsg, c0, n0 + 1)
      else
        match captionLoop (Char.ofNat b) [] r1 (n0 + 1) with
        | .error (msg, n) => .error (msg, c0, n)
        | .ok (cap, r2, n2) =>
          let c1 := { c0 with caption := cap }
          match tagLoop c1.header_size [] [] r2 n2 with
          | .error (msg, n) => .error (msg, c1, n)
          | .ok (tags, r3, n3) =>
            match checkTags tags with
            | .error msg => .error (msg, c1, n3)
            | .ok _ =>
              let c2 := { c1 with tags := tags }
              match pixelLoop (c2.header_size + c2.content_size) [] r3 n3 with
              | .error (msg, pxs, n) => .error (msg, { c2 with pixels := pxs }, n)
              | .ok (pxs, r4, n4) =>
                let c3 := { c2 with pixels := pxs }
                match r4 with
                | [] => .ok (c3, n4)
                | _ :: _ => .error ("Invalid image: content", c3, n4)

/-- `CIFF.parse_ciff_file`: always returns a record; the `except` block
turns any raised exception into `is_valid := false` plus the message. -/
def parse_ciff_file (s : ByteStream) : CIFF :=
  match parse_ciff_aux s with
  | .ok (c, _) => c
  | .error (msg, c, _) => { c with is_valid := false, error_message := msg }

/-- The value of the `bytes_read` counter when `parse_ciff_file` returns
(at the point the result record is finished or the exception is raised). -/
def bytesConsumed (s : ByteStream) : Nat :=
  match parse_ciff_aux s with
  | .ok (_, n) => n
  | .error (_, _, n) => n

/-- The valid one-pixel one-tag stream of the spec scenario: magic CIFF,
header_size 39, content_size 3, width 1, height 1, empty caption, one
tag x followed by a null, pixel bytes 10 20 30. -/
def exStream2 : ByteStream :=
  [67, 73, 70, 70] ++ [39, 0, 0, 0, 0, 0, 0, 0] ++ [3, 0, 0, 0, 0, 0, 0, 0] ++
    [1, 0, 0, 0, 0, 0, 0, 0] ++ [1, 0, 0, 0, 0, 0, 0, 0] ++ [10] ++ [120, 0] ++ [10, 20, 30]

/-! ### Helper lemmas -/

theorem toNat_charOfNat (b : Nat) (hb : b < 128) : (Char.ofNat b).toNat = b := by
  unfold Char.ofNat
  rw [dif_pos (Or.inl (by omega : b < 0xd800))]
  rfl

theorem charOfNat_inj (b c : Nat) (hb : b < 128) (hc : c < 128) :
    Char.ofNat b = Char.ofNat c ↔ b = c := by
  constructor
  · intro h
    have h2 := congrArg Char.toNat h
    rwa [toNat_charOfNat b hb, toNat_charOfNat c hc] at h2
  · intro h; rw [h]

theorem charOfNat_eq_nl (b : Nat) (hb : b < 128) : Char.ofNat b = '\n' ↔ b = 10 :=
  charOfNat_inj b 10 hb (by omega)

/-- A well-formed stored tag: some null-free prefix followed by one
terminating null character. -/
def GoodTag (t : List Char) : Prop :=
  ∃ u, t = u ++ [Char.ofNat 0] ∧ Char.ofNat 0 ∉ u

/-- Successful caption loop: it consumes some prefix of the remaining
stream, advances the counter by exactly that many bytes, and the
accumulated caption stays newline-free. -/
theorem captionLoop_ok (stream : ByteStream) :
    ∀ char acc n cap rest n2,
      captionLoop char acc stream n = .ok (cap, rest, n2) →
      ∃ k, k ≤ stream.length ∧ n2 = n + k ∧ rest = stream.drop k ∧
        ('\n' ∉ acc → '\n' ∉ cap) := by
  induction stream with
  | nil =>
    intro char acc n cap rest n2 h
    simp only [captionLoop] at h
    split at h
    · simp only [Except.ok.injEq, Prod.mk.injEq] at h
      obtain ⟨h1, h2, h3⟩ := h
      exact ⟨0, by simp, by omega, by simp [h2], fun ha => h1 ▸ ha⟩
    · simp at h
  | cons b rest1 ih =>
    intro char acc n cap rest n2 h
    simp only [captionLoop] at h
    split at h
    · simp only [Except.ok.injEq, Prod.mk.injEq] at h
      obtain ⟨h1, h2, h3⟩ := h
      exact ⟨0, by simp, by omega, by simp [h2], fun ha => h1 ▸ ha⟩
    · rename_i hnl
      split at h
      · simp at h
      · rename_i hb
        obtain ⟨k, hk, hn2, hrest, hcap⟩ := ih _ _ _ _ _ _ h
        refine ⟨k + 1, by simpa using hk, by omega, by simpa using hrest, ?_⟩
        intro hacc
        refine hcap ?_
        simp only [List.mem_append, List.mem_singleton]
        rintro (h1 | h2)
        · exact hacc h1
        · exact hnl h2.symm

/-- Failed caption loop: the message is nonempty and the counter at the
raise exceeds the entry counter by at most the remaining stream length. -/
theorem captionLoop_err (stream : ByteStream) :
    ∀ char acc n msg n2,
      captionLoop char acc stream n = .error (msg, n2) →
      msg ≠ "" ∧ n ≤ n2 ∧ n2 ≤ n + stream.length := by
  induction stream with
  | nil =>
    intro char acc n msg n2 h
    simp only [captionLoop] at h
    split at h
    · simp at h
    · simp only [Except.error.injEq, Prod.mk.injEq] at h
      obtain ⟨h1, h2⟩ := h
      exact ⟨h1 ▸ by decide, by omega, by omega⟩
  | cons b rest1 ih =>
    intro char acc n msg n2 h
    simp only [captionLoop] at h
    split at h
    · simp at h
    · split at h
      · simp only [Except.error.injEq, Prod.mk.injEq] at h
        obtain ⟨h1, h2⟩ := h
        exact ⟨h1 ▸ by decide, by omega, by simp; omega⟩
      · have := ih _ _ _ _ _ h
        refine ⟨this.1, by omega, ?_⟩
        have h2 := this.2.2
        simp only [List.length_cons]
        omega

/-- Successful tag loop: the counter ends exactly at `header_size`, the
loop consumes exactly the bytes up to there, the byte consumed last (if
any byte was consumed) is a null, and every stored tag is a null-free
run closed by one terminating null. -/
theorem tagLoop_ok (hs : Nat) (stream : ByteStream) :
    ∀ tags tag n tags2 rest n2,
      tagLoop hs tags tag stream n = .ok (tags2, rest, n2) →
      n2 = hs ∧
      ∃ k, k ≤ stream.length ∧ hs = n + k ∧ rest = stream.drop k ∧
        (k = 0 → tags2 = tags) ∧
        (k ≠ 0 → stream[k - 1]? = some 0) ∧
        ((∀ t ∈ tags, GoodTag t) → Char.ofNat 0 ∉ tag → ∀ t ∈ tags2, GoodTag t) := by
  induction stream with
  | nil =>
    intro tags tag n tags2 rest n2 h
    simp only [tagLoop] at h
    split at h
    · rename_i hexit
      simp only [Except.ok.injEq, Prod.mk.injEq] at h
      obtain ⟨h1, h2, h3⟩ := h
      exact ⟨by omega, 0, by simp, by omega, by simp [h2], fun _ => h1.symm, by simp,
        fun hg _ => h1 ▸ hg⟩
    · simp at h
  | cons b rest1 ih =>
    intro tags tag n tags2 rest n2 h
    simp only [tagLoop] at h
    split at h
    · rename_i hexit
      simp only [Except.ok.injEq, Prod.mk.injEq] at h
      obtain ⟨h1, h2, h3⟩ := h
      exact ⟨by omega, 0, by simp, by omega, by simp [h2], fun _ => h1.symm, by simp,
        fun hg _ => h1 ▸ hg⟩
    · rename_i hexit
      by_cases hb : 128 ≤ b
      · rw [if_pos hb] at h; exact absurd h (by simp)
      · rw [if_neg hb] at h
        by_cases hnl : Char.ofNat b = '\n'
        · rw [if_pos hnl] at h; exact absurd h (by simp)
        · rw [if_neg hnl] at h
          by_cases hc0 : Char.ofNat b = Char.ofNat 0
          · rw [if_neg (by simp [hc0] : ¬(n + 1 = hs ∧ ¬Char.ofNat b = Char.ofNat 0))] at h
            simp only [if_pos hc0] at h
            obtain ⟨hn2, k1, hk1, hhs, hrest, htags0, hbyte, hinv⟩ := ih _ _ _ _ _ _ h
            refine ⟨hn2, k1 + 1, by simpa using hk1, by omega, by simpa using hrest,
              by omega, ?_, ?_⟩
            · intro _
              match k1, hbyte with
              | 0, _ =>
                have hb0 : b = 0 := (charOfNat_inj b 0 (by omega) (by omega)).mp hc0
                simpa using hb0
              | k + 1, hbyte => simpa using hbyte (by omega)
            · intro hg htag
              refine hinv ?_ (by simp)
              intro t ht
              rcases List.mem_append.mp ht with h1 | h1
              · exact hg t h1
              · rw [List.mem_singleton.mp h1]
                exact ⟨tag, by rw [hc0], htag⟩
          · by_cases hfin : n + 1 = hs
            · rw [if_pos ⟨hfin, hc0⟩] at h; exact absurd h (by simp)
            · rw [if_neg (by tauto : ¬(n + 1 = hs ∧ ¬Char.ofNat b = Char.ofNat 0))] at h
              simp only [if_neg hc0] at h
              obtain ⟨hn2, k1, hk1, hhs, hrest, htags0, hbyte, hinv⟩ := ih _ _ _ _ _ _ h
              have hk1ne : k1 ≠ 0 := by omega
              refine ⟨hn2, k1 + 1, by simpa using hk1, by omega, by simpa using hrest,
                by omega, ?_, ?_⟩
              · intro _
                match k1, hk1ne, hbyte with
                | k + 1, _, hbyte => simpa using hbyte (by omega)
              · intro hg htag
                refine hinv hg ?_
                simp only [List.mem_append, List.mem_singleton]
                rintro (h1 | h1)
                · exact htag h1
                · exact hc0 (by rw [h1])

/-- Failed tag loop: nonempty message, bounded counter advance. -/
theorem tagLoop_err (hs : Nat) (stream : ByteStream) :
    ∀ tags tag n msg n2,
      tagLoop hs tags tag stream n = .error (msg, n2) →
      msg ≠ "" ∧ n ≤ n2 ∧ n2 ≤ n + stream.length := by
  induction stream with
  | nil =>
    intro tags tag n msg n2 h
    simp only [tagLoop] at h
    split at h
    · simp at h
    · simp only [Except.error.injEq, Prod.mk.injEq] at h
      obtain ⟨h1, h2⟩ := h
      exact ⟨h1 ▸ by decide, by omega, by omega⟩
  | cons b rest1 ih =>
    intro tags tag n msg n2 h
    simp only [tagLoop] at h
    split at h
    · simp at h
    · by_cases hb : 128 ≤ b
      · rw [if_pos hb] at h
        simp only [Except.error.injEq, Prod.mk.injEq] at h
        obtain ⟨h1, h2⟩ := h
        exact ⟨h1 ▸ by decide, by omega, by simp; omega⟩
      · rw [if_neg hb] at h
        by_cases hnl : Char.ofNat b = '\n'
        · rw [if_pos hnl] at h
          simp only [Except.error.injEq, Prod.mk.injEq] at h
          obtain ⟨h1, h2⟩ := h
          exact ⟨h1 ▸ by decide, by omega, by simp; omega⟩
        · rw [if_neg hnl] at h
          by_cases hcond : n + 1 = hs ∧ ¬Char.ofNat b = Char.ofNat 0
          · rw [if_pos hcond] at h
            simp only [Except.error.injEq, Prod.mk.injEq] at h
            obtain ⟨h1, h2⟩ := h
            exact ⟨h1 ▸ by decide, by omega, by simp; omega⟩
          · rw [if_neg hcond] at h
            have := ih _ _ _ _ _ h
            refine ⟨this.1, by omega, ?_⟩
            have h2 := this.2.2
            simp only [List.length_cons]
            omega

/-- `checkTags` raises only nonempty messages. -/
theorem checkTags_err : ∀ tags msg, checkTags tags = .error msg → msg ≠ "" := by
  intro tags
  induction tags with
  | nil => intro msg h; simp [checkTags] at h
  | cons t ts ih =>
    intro msg h
    simp only [checkTags] at h
    split at h
    · simp only [Except.error.injEq] at h
      exact h ▸ by decide
    · split at h
      · exact ih _ h
      · simp only [Except.error.injEq] at h
        exact h ▸ by decide

/-- Successful pixel loop, entered with `target` exactly `3 * k` bytes
beyond the counter: consumes exactly `3 * k` bytes and appends exactly
`k` pixels. -/
theorem pixelLoop_ok (target : Nat) :
    ∀ k pixels stream n pix2 rest n2,
      target = n + 3 * k →
      pixelLoop target pixels stream n = .ok (pix2, rest, n2) →
      n2 = target ∧ pix2.length = pixels.length + k ∧
        3 * k ≤ stream.length ∧ rest = stream.drop (3 * k) := by
  intro k
  induction k with
  | zero =>
    intro pixels stream n pix2 rest n2 htar h
    unfold pixelLoop at h
    rw [if_neg (by omega)] at h
    simp only [Except.ok.injEq, Prod.mk.injEq] at h
    obtain ⟨h1, h2, h3⟩ := h
    exact ⟨by omega, by simp [h1], by simp, by simp [h2]⟩
  | succ k ih =>
    intro pixels stream n pix2 rest n2 htar h
    unfold pixelLoop at h
    rw [if_pos (by omega)] at h
    match stream, h with
    | b0 :: b1 :: b2 :: rest1, h =>
      obtain ⟨h1, h2, h3, h4⟩ := ih _ _ _ _ _ _ (by omega) h
      refine ⟨h1, ?_, ?_, ?_⟩
      · simp only [List.length_append, List.length_cons, List.length_nil] at h2
        omega
      · simp only [List.length_cons]; omega
      · rw [h4]
        have h5 : 3 * (k + 1) = 3 * k + 3 := by omega
        rw [h5]
        rfl

/-- Failed pixel loop: nonempty message, bounded counter advance. -/
theorem pixelLoop_err (target : Nat) :
    ∀ L stream pixels n msg pxs n2, stream.length ≤ L →
      pixelLoop target pixels stream n = .error (msg, pxs, n2) →
      msg ≠ "" ∧ n ≤ n2 ∧ n2 ≤ n + stream.length := by
  intro L
  induction L with
  | zero =>
    intro stream pixels n msg pxs n2 hL h
    match stream, hL with
    | [], _ =>
      unfold pixelLoop at h
      split at h
      · simp only [Except.error.injEq, Prod.mk.injEq] at h
        exact ⟨h.1 ▸ by decide, by omega, by omega⟩
      · simp at h
    | b :: rest1, hL => simp at hL
  | succ L ih =>
    intro stream pixels n msg pxs n2 hL h
    unfold pixelLoop at h
    split at h
    · match stream, hL, h with
      | [], _, h =>
        simp only [Except.error.injEq, Prod.mk.injEq] at h
        exact ⟨h.1 ▸ by decide, by omega, by omega⟩
      | [b0], _, h =>
        simp only [Except.error.injEq, Prod.mk.injEq] at h
        obtain ⟨hm, hp, hn⟩ := h
        exact ⟨hm ▸ by decide, by omega, by omega⟩
      | [b0, b1], _, h =>
        simp only [Except.error.injEq, Prod.mk.injEq] at h
        obtain ⟨hm, hp, hn⟩ := h
        exact ⟨hm ▸ by decide, by omega, by omega⟩
      | b0 :: b1 :: b2 :: rest1, hL, h =>
        have hlen : rest1.length ≤ L := by
          simp only [List.length_cons] at hL
          omega
        have this1 := ih rest1 _ _ _ _ _ hlen h
        refine ⟨this1.1, by omega, ?_⟩
        have h2 := this1.2.2
        simp only [List.length_cons]
        omega
    · simp at h

/-- Successful fixed-layout phase: 36 bytes consumed, all header fields
decoded from their offsets, both size checks passed, the rest of the
record still at its defaults. -/
theorem parseFixed_ok (s : ByteStream) (c : CIFF) (n : Nat) (rest : ByteStream) :
    parseFixed s = .ok (c, n, rest) →
    n = 36 ∧ rest = s.drop 36 ∧ 36 ≤ s.length ∧
      c.magic = ['C', 'I', 'F', 'F'] ∧
      c.header_size = unpackQ ((s.drop 4).take 8) ∧
      38 ≤ c.header_size ∧
      c.content_size = unpackQ ((s.drop 12).take 8) ∧
      c.width = unpackQ ((s.drop 20).take 8) ∧
      c.height = unpackQ ((s.drop 28).take 8) ∧
      c.content_size = c.width * c.height * 3 ∧
      c.caption = [] ∧ c.tags = [] ∧ c.pixels = [] ∧
      c.is_valid = true ∧ c.error_message = "" := by
  intro h
  simp only [parseFixed] at h
  split at h
  case isTrue => simp at h
  case isFalse hlen4 =>
  split at h
  case isFalse => simp at h
  case isTrue hac =>
  split at h
  case isTrue => simp at h
  case isFalse hmagic =>
  split at h
  case isTrue => simp at h
  case isFalse hlen8 =>
  split at h
  case isTrue => simp at h
  case isFalse hhs38 =>
  split at h
  case isTrue => simp at h
  case isFalse hlencs =>
  split at h
  case isTrue => simp at h
  case isFalse hlenw =>
  split at h
  case isTrue => simp at h
  case isFalse hlenh =>
  split at h
  case isTrue => simp at h
  case isFalse hcs =>
  simp only [Except.ok.injEq, Prod.mk.injEq] at h
  obtain ⟨hc, hn, hrest⟩ := h
  push_neg at hlen4 hlen8 hlencs hlenw hlenh hmagic hcs
  simp only [List.length_take, List.length_drop] at hlen4 hlen8 hlencs hlenw hlenh
  have l36 : 36 ≤ s.length := by omega
  subst hc
  refine ⟨hn.symm, ?_, l36, by simpa using hmagic, ?_, ?_, ?_, ?_, ?_, ?_,
    rfl, rfl, rfl, rfl, rfl⟩
  · rw [← hrest, List.drop_drop, List.drop_drop, List.drop_drop, List.drop_drop]
  · rfl
  · simpa using not_lt.mp hhs38
  · simp [List.drop_drop]
  · simp [List.drop_drop]
  · simp [List.drop_drop]
  · simpa using hcs

/-- Failed fixed-layout phase: nonempty message, counter within the
stream. -/
theorem parseFixed_err (s : ByteStream) (msg : String) (c : CIFF) (n : Nat) :
    parseFixed s = .error (msg, c, n) → msg ≠ "" ∧ n ≤ s.length := by
  intro h
  simp only [parseFixed] at h
  split at h
  case isTrue =>
    simp only [Except.error.injEq, Prod.mk.injEq] at h
    exact ⟨h.1 ▸ by decide, by omega⟩
  case isFalse hlen4 =>
  push_neg at hlen4
  simp only [List.length_take] at hlen4
  have l4 : 4 ≤ s.length := by omega
  split at h
  case isFalse =>
    simp only [Except.error.injEq, Prod.mk.injEq] at h
    exact ⟨h.1 ▸ by decide, by omega⟩
  case isTrue hac =>
  split at h
  case isTrue =>
    simp only [Except.error.injEq, Prod.mk.injEq] at h
    exact ⟨h.1 ▸ by decide, by omega⟩
  case isFalse hmagic =>
  split at h
  case isTrue =>
    simp only [Except.error.injEq, Prod.mk.injEq] at h
    exact ⟨h.1 ▸ by decide, by omega⟩
  case isFalse hlen8 =>
  push_neg at hlen8
  simp only [List.length_take, List.length_drop] at hlen8
  have l12 : 12 ≤ s.length := by omega
  split at h
  case isTrue =>
    simp only [Except.error.injEq, Prod.mk.injEq] at h
    exact ⟨h.1 ▸ by decide, by omega⟩
  case isFalse hhs38 =>
  split at h
  case isTrue =>
    simp only [Except.error.injEq, Prod.mk.injEq] at h
    exact ⟨h.1 ▸ by decide, by omega⟩
  case isFalse hlencs =>
  push_neg at hlencs
  simp only [List.length_take, List.length_drop] at hlencs
  have l20 : 20 ≤ s.length := by omega
  split at h
  case isTrue =>
    simp only [Except.error.injEq, Prod.mk.injEq] at h
    exact ⟨h.1 ▸ by decide, by omega⟩
  case isFalse hlenw =>
  push_neg at hlenw
  simp only [List.length_take, List.length_drop] at hlenw
  have l28 : 28 ≤ s.length := by omega
  split at h
  case isTrue =>
    simp only [Except.error.injEq, Prod.mk.injEq] at h
    exact ⟨h.1 ▸ by decide, by omega⟩
  case isFalse hlenh =>
  push_neg at hlenh
  simp only [List.length_take, List.length_drop] at hlenh
  have l36 : 36 ≤ s.length := by omega
  split at h
  case isTrue =>
    simp only [Except.error.injEq, Prod.mk.injEq] at h
    exact ⟨h.1 ▸ by decide, by omega⟩
  case isFalse hcs => simp at h

/-- Characterization of a successful run of the parser body: the shape
of every field of the returned record, the exact byte accounting, and
the position facts used by the individual claims. -/
theorem parse_aux_ok (s : ByteStream) (c : CIFF) (nf : Nat) :
    parse_ciff_aux s = .ok (c, nf) →
    c.is_valid = true ∧ c.error_message = "" ∧
      c.magic = ['C', 'I', 'F', 'F'] ∧
      c.header_size = unpackQ ((s.drop 4).take 8) ∧
      c.content_size = unpackQ ((s.drop 12).take 8) ∧
      38 ≤ c.header_size ∧
      c.content_size = c.width * c.height * 3 ∧
      c.pixels.length = c.width * c.height ∧
      '\n' ∉ c.caption ∧
      (∀ t ∈ c.tags, GoodTag t) ∧
      nf = c.header_size + c.content_size ∧
      s.length = nf ∧
      (c.tags ≠ [] → s[c.header_size - 1]? = some 0) := by
  intro h
  simp only [parse_ciff_aux] at h
  split at h
  · simp at h
  rename_i c0 n0 r0 hfix
  obtain ⟨hn0, hr0, hlen36, hmagic, hhs, hhs38, hcs, hw, hh, hcseq, hcap0, htags0, hpix0,
    hval0, herr0⟩ := parseFixed_ok s c0 n0 r0 hfix
  subst hn0
  split at h
  · simp at h
  rename_i b r1
  have hlen37 : 37 ≤ s.length := by
    have hlc := congrArg List.length hr0
    simp only [List.length_cons, List.length_drop] at hlc
    omega
  have hr1 : r1 = s.drop 37 := by
    have hdd := List.drop_drop 1 36 s
    rw [← hr0] at hdd
    simpa using hdd
  split at h
  · simp at h
  rename_i hb
  split at h
  · simp at h
  rename_i cap r2 n2 hcl
  obtain ⟨k1, hk1, hn2, hr2, hcapnl⟩ := captionLoop_ok r1 _ _ _ _ _ _ hcl
  have hr1len : r1.length = s.length - 37 := by rw [hr1, List.length_drop]
  have hn2len : n2 ≤ s.length := by omega
  have hr2s : r2 = s.drop n2 := by
    rw [hr2, hr1, List.drop_drop]
    have he : 37 + k1 = n2 := by omega
    rw [he]
  split at h
  · simp at h
  rename_i tags2 r3 n3 htl
  obtain ⟨hn3, k2, hk2, hhs2, hr3, htags2nil, hbyte, hginv⟩ :=
    tagLoop_ok c0.header_size r2 _ _ _ _ _ _ htl
  have hr2len : r2.length = s.length - n2 := by rw [hr2s, List.length_drop]
  have hhslen : c0.header_size ≤ s.length := by omega
  have hr3s : r3 = s.drop c0.header_size := by
    rw [hr3, hr2s, List.drop_drop]
    have he : n2 + k2 = c0.header_size := by omega
    rw [he]
  split at h
  · simp at h
  rename_i u hck
  split at h
  · simp at h
  rename_i pix r4 n4 hpl
  have hcs3 : c0.content_size = 3 * (c0.width * c0.height) := by
    rw [hcseq]; ring
  obtain ⟨hn4, hpixlen, h3k, hr4⟩ :=
    pixelLoop_ok (c0.header_size + c0.content_size) (c0.width * c0.height)
      [] r3 n3 pix r4 n4 (by rw [hn3, hcs3]) hpl
  have hr3len : r3.length = s.length - c0.header_size := by
    rw [hr3s, List.length_drop]
  split at h
  case _ =>
    simp only [Except.ok.injEq, Prod.mk.injEq] at h
    obtain ⟨hc, hnf⟩ := h
    have hr4nil : s.drop (c0.header_size + 3 * (c0.width * c0.height)) = [] := by
      rw [← List.drop_drop, ← hr3s]
      exact hr4.symm
    have hslen : s.length ≤ c0.header_size + 3 * (c0.width * c0.height) :=
      List.drop_eq_nil_iff.mp hr4nil
    have hsltar : s.length = c0.header_size + c0.content_size := by
      rw [hcs3]; omega
    subst hc hnf
    refine ⟨hval0, herr0, hmagic, hhs, hcs, hhs38, hcseq, ?_, ?_, ?_, ?_, ?_, ?_⟩
    · simpa using hpixlen
    · exact fun hmem => (hcapnl (by simp)) hmem
    · exact hginv (by simp) (by simp)
    · exact hn4.symm ▸ rfl
    · rw [hn4, hsltar]
    · intro htne
      have hk2ne : k2 ≠ 0 := by
        intro hzero
        exact htne (htags2nil hzero)
      have hb0 := hbyte hk2ne
      rw [hr2s, List.getElem?_drop] at hb0
      have he : n2 + (k2 - 1) = c0.header_size - 1 := by omega
      rwa [he] at hb0
  case _ q qs => simp at h

/-- Every raised exception carries a nonempty message, and the counter
at the raise never exceeds the stream length. -/
theorem parse_aux_err (s : ByteStream) (msg : String) (c : CIFF) (n : Nat) :
    parse_ciff_aux s = .error (msg, c, n) → msg ≠ "" ∧ n ≤ s.length := by
  intro h
  simp only [parse_ciff_aux] at h
  split at h
  case _ e hfe =>
    simp only [Except.error.injEq] at h
    rw [h] at hfe
    exact parseFixed_err s msg c n hfe
  rename_i c0 n0 r0 hfix
  obtain ⟨hn0, hr0, hlen36, hmagic, hhs, hhs38, hcs, hw, hh, hcseq, hcap0, htags0, hpix0,
    hval0, herr0⟩ := parseFixed_ok s c0 n0 r0 hfix
  subst hn0
  split at h
  case _ =>
    simp only [Except.error.injEq, Prod.mk.injEq] at h
    obtain ⟨h1, h2, h3⟩ := h
    exact ⟨h1 ▸ by decide, by omega⟩
  rename_i b r1
  have hlen37 : 37 ≤ s.length := by
    have hlc := congrArg List.length hr0
    simp only [List.length_cons, List.length_drop] at hlc
    omega
  have hr1 : r1 = s.drop 37 := by
    have hdd := List.drop_drop 1 36 s
    rw [← hr0] at hdd
    simpa using hdd
  have hr1len : r1.length = s.length - 37 := by rw [hr1, List.length_drop]
  split at h
  case _ =>
    simp only [Except.error.injEq, Prod.mk.injEq] at h
    obtain ⟨h1, h2, h3⟩ := h
    exact ⟨h1 ▸ by decide, by omega⟩
  rename_i hb
  split at h
  case _ m1 n1 hcl =>
    simp only [Except.error.injEq, Prod.mk.injEq] at h
    obtain ⟨h1, h2, h3⟩ := h
    obtain ⟨hm1, hb1, hb2⟩ := captionLoop_err r1 _ _ _ _ _ hcl
    exact ⟨h1 ▸ hm1, by omega⟩
  rename_i cap r2 n2 hcl
  obtain ⟨k1, hk1, hn2, hr2, hcapnl⟩ := captionLoop_ok r1 _ _ _ _ _ _ hcl
  have hn2len : n2 ≤ s.length := by omega
  have hr2s : r2 = s.drop n2 := by
    rw [hr2, hr1, List.drop_drop]
    have he : 37 + k1 = n2 := by omega
    rw [he]
  have hr2len : r2.length = s.length - n2 := by rw [hr2s, List.length_drop]
  split at h
  case _ m1 n1 htl =>
    simp only [Except.error.injEq, Prod.mk.injEq] at h
    obtain ⟨h1, h2, h3⟩ := h
    obtain ⟨hm1, hb1, hb2⟩ := tagLoop_err c0.header_size r2 _ _ _ _ _ htl
    exact ⟨h1 ▸ hm1, by omega⟩
  rename_i tags2 r3 n3 htl
  obtain ⟨hn3, k2, hk2, hhs2, hr3, htags2nil, hbyte, hginv⟩ :=
    tagLoop_ok c0.header_size r2 _ _ _ _ _ _ htl
  have hhslen : c0.header_size ≤ s.length := by omega
  have hr3s : r3 = s.drop c0.header_size := by
    rw [hr3, hr2s, List.drop_drop]
    have he : n2 + k2 = c0.header_size := by omega
    rw [he]
  have hr3len : r3.length = s.length - c0.header_size := by
    rw [hr3s, List.length_drop]
  split at h
  case _ m1 hck =>
    simp only [Except.error.injEq, Prod.mk.injEq] at h
    obtain ⟨h1, h2, h3⟩ := h
    exact ⟨h1 ▸ checkTags_err tags2 m1 hck, by omega⟩
  rename_i u hck
  split at h
  case _ m1 pxs n1 hpl =>
    simp only [Except.error.injEq, Prod.mk.injEq] at h
    obtain ⟨h1, h2, h3⟩ := h
    obtain ⟨hm1, hb1, hb2⟩ := pixelLoop_err (c0.header_size + c0.content_size)
      r3.length r3 _ _ _ _ _ (le_refl _) hpl
    exact ⟨h1 ▸ hm1, by omega⟩
  rename_i pix r4 n4 hpl
  have hcs3 : c0.content_size = 3 * (c0.width * c0.height) := by
    rw [hcseq]; ring
  obtain ⟨hn4, hpixlen, h3k, hr4⟩ :=
    pixelLoop_ok (c0.header_size + c0.content_size) (c0.width * c0.height)
      [] r3 n3 pix r4 n4 (by rw [hn3, hcs3]) hpl
  split at h
  case _ => simp at h
  case _ q qs =>
    simp only [Except.error.injEq, Prod.mk.injEq] at h
    obtain ⟨h1, h2, h3⟩ := h
    refine ⟨h1 ▸ by decide, ?_⟩
    have hle : c0.header_size + c0.content_size ≤ s.length := by
      rw [hcs3]; omega
    omega


/-- If the returned record is valid, the parser body returned it through
the success path, with the final counter value. -/
theorem valid_elim (s : ByteStream) (h : (parse_ciff_file s).is_valid = true) :
    parse_ciff_aux s = .ok (parse_ciff_file s, bytesConsumed s) := by
  cases haux : parse_ciff_aux s with
  | ok v =>
    obtain ⟨c2, n2⟩ := v
    simp only [parse_ciff_file, bytesConsumed, haux]
  | error e =>
    obtain ⟨m, c2, n2⟩ := e
    simp only [parse_ciff_file, haux] at h
    simp at h

/-! ### Claim theorems -/

/-- C1: for every input byte stream, `parse_ciff_file` returns a record
(the embedding is a total function), and the returned record has a
nonempty `error_message` exactly when `is_valid` is false. -/
theorem ciff_error_message_iff_invalid (s : ByteStream) :
    (parse_ciff_file s).error_message ≠ "" ↔ (parse_ciff_file s).is_valid = false := by
  cases haux : parse_ciff_aux s with
  | ok v =>
    obtain ⟨c2, n2⟩ := v
    obtain ⟨hval, herr, hrest⟩ := parse_aux_ok s c2 n2 haux
    simp only [parse_ciff_file, haux]
    simp [herr, hval]
  | error e =>
    obtain ⟨m, c2, n2⟩ := e
    obtain ⟨hm, hn⟩ := parse_aux_err s m c2 n2 haux
    simp only [parse_ciff_file, haux]
    simp [hm]

/-- C2: the concrete scenario stream (magic CIFF, header_size 39,
content_size 3, width 1, height 1, empty caption, one tag "x\0", pixel
bytes 10 20 30) decodes as valid with the stated pixels and tags. -/
theorem ciff_scenario_one_pixel :
    (parse_ciff_file exStream2).is_valid = true ∧
      (parse_ciff_file exStream2).pixels = [(10, 20, 30)] ∧
      (parse_ciff_file exStream2).tags = [['x', Char.ofNat 0]] := by
  have h : parse_ciff_file exStream2 =
      { magic := ['C', 'I', 'F', 'F'], header_size := 39, content_size := 3,
        width := 1, height := 1, caption := [], tags := [['x', Char.ofNat 0]],
        pixels := [(10, 20, 30)], is_valid := true, error_message := "" } := by
    simp only [parse_ciff_file, parse_ciff_aux, parseFixed, exStream2]
    rfl
  rw [h]
  exact ⟨rfl, rfl, rfl⟩

/-- C3: every record returned valid satisfies the size invariants:
header_size at least 38, content_size equal to width*height*3, and
exactly width*height decoded pixels. -/
theorem ciff_valid_size_invariants (s : ByteStream)
    (h : (parse_ciff_file s).is_valid = true) :
    38 ≤ (parse_ciff_file s).header_size ∧
      (parse_ciff_file s).content_size =
        (parse_ciff_file s).width * (parse_ciff_file s).height * 3 ∧
      (parse_ciff_file s).pixels.length =
        (parse_ciff_file s).width * (parse_ciff_file s).height := by
  obtain ⟨hval, herr, hmagic, hhs, hcs, hhs38, hcseq, hpixlen, hrest⟩ :=
    parse_aux_ok s _ _ (valid_elim s h)
  exact ⟨hhs38, hcseq, hpixlen⟩

/-- Witness for C3 at the concrete one-pixel stream. -/
theorem ciff_valid_size_invariants_witness :
    (parse_ciff_file exStream2).is_valid = true ∧
      (38 ≤ (parse_ciff_file exStream2).header_size ∧
        (parse_ciff_file exStream2).content_size =
          (parse_ciff_file exStream2).width * (parse_ciff_file exStream2).height * 3 ∧
        (parse_ciff_file exStream2).pixels.length =
          (parse_ciff_file exStream2).width * (parse_ciff_file exStream2).height) :=
  have h : (parse_ciff_file exStream2).is_valid = true := by
    simp only [parse_ciff_file, parse_ciff_aux, parseFixed, exStream2]
    rfl
  ⟨h, ciff_valid_size_invariants exStream2 h⟩

/-- C9: the parser is a total function of the finite input stream (the
embedding needs no partiality), and on every run, successful or failed,
the `bytes_read` counter at return is bounded by the stream length:
every loop stops because a read past the end of the stream comes back
short and aborts the decode. -/
theorem ciff_consumed_le_length (s : ByteStream) : bytesConsumed s ≤ s.length := by
  cases haux : parse_ciff_aux s with
  | ok v =>
    obtain ⟨c2, n2⟩ := v
    obtain ⟨hval, herr, hmagic, hhs, hcs, hhs38, hcseq, hpixlen, hcap, htags, hnf, hslen,
      hbyte⟩ := parse_aux_ok s c2 n2 haux
    simp only [bytesConsumed, haux]
    omega
  | error e =>
    obtain ⟨m, c2, n2⟩ := e
    obtain ⟨hm, hn⟩ := parse_aux_err s m c2 n2 haux
    simp only [bytesConsumed, haux]
    exact hn

/-- A valid stream whose caption is the single null character: magic
CIFF, header_size 40, content_size 0, width 0, height 0, caption bytes
a null then the newline, tag bytes two nulls. -/
def exCaption0 : ByteStream :=
  [67, 73, 70, 70] ++ [40, 0, 0, 0, 0, 0, 0, 0] ++ [0, 0, 0, 0, 0, 0, 0, 0] ++
    [0, 0, 0, 0, 0, 0, 0, 0] ++ [0, 0, 0, 0, 0, 0, 0, 0] ++ [0, 10] ++ [0, 0]

/-- C4 counterexample: the parser accepts a stream whose caption
contains a null character, refuting the claim that a valid caption
never contains a null anywhere inside it. -/
theorem ciff_caption_null_accepted :
    (parse_ciff_file exCaption0).is_valid = true ∧
      Char.ofNat 0 ∈ (parse_ciff_file exCaption0).caption := by
  have h : parse_ciff_file exCaption0 =
      { magic := ['C', 'I', 'F', 'F'], header_size := 40, content_size := 0,
        width := 0, height := 0, caption := [Char.ofNat 0],
        tags := [[Char.ofNat 0], [Char.ofNat 0]],
        pixels := [], is_valid := true, error_message := "" } := by
    simp only [parse_ciff_file, parse_ciff_aux, parseFixed, exCaption0]
    rfl
  rw [h]
  exact ⟨rfl, by simp⟩

/-- C4 (amended): the caption of a record returned valid never contains
a newline character (a null character, however, can occur inside it). -/
theorem ciff_caption_no_newline (s : ByteStream)
    (h : (parse_ciff_file s).is_valid = true) :
    '\n' ∉ (parse_ciff_file s).caption := by
  obtain ⟨hval, herr, hmagic, hhs, hcs, hhs38, hcseq, hpixlen, hcap, hrest⟩ :=
    parse_aux_ok s _ _ (valid_elim s h)
  exact hcap

/-- Witness for the amended C4 at the null-caption stream. -/
theorem ciff_caption_no_newline_witness :
    (parse_ciff_file exCaption0).is_valid = true ∧
      '\n' ∉ (parse_ciff_file exCaption0).caption :=
  have h : (parse_ciff_file exCaption0).is_valid = true := by
    simp only [parse_ciff_file, parse_ciff_aux, parseFixed, exCaption0]
    rfl
  ⟨h, ciff_caption_no_newline exCaption0 h⟩

/-- A valid stream with zero tags whose final header byte is the
caption-terminating newline: magic CIFF, header_size 38, content_size
0, width 0, height 0, caption byte 97 then the newline. -/
def exNoTag : ByteStream :=
  [67, 73, 70, 70] ++ [38, 0, 0, 0, 0, 0, 0, 0] ++ [0, 0, 0, 0, 0, 0, 0, 0] ++
    [0, 0, 0, 0, 0, 0, 0, 0] ++ [0, 0, 0, 0, 0, 0, 0, 0] ++ [97, 10]

/-- C5 counterexample: a stream in which the caption newline is the
final header byte decodes as valid with zero tags, and its byte at
offset header_size - 1 is the newline 10, not a null; this refutes the
claim that such a stream never yields a valid record. -/
theorem ciff_newline_header_end_accepted :
    (parse_ciff_file exNoTag).is_valid = true ∧
      (parse_ciff_file exNoTag).tags = [] ∧
      (parse_ciff_file exNoTag).header_size = 38 ∧
      exNoTag[37]? = some 10 := by
  have h : parse_ciff_file exNoTag =
      { magic := ['C', 'I', 'F', 'F'], header_size := 38, content_size := 0,
        width := 0, height := 0, caption := [Char.ofNat 97], tags := [],
        pixels := [], is_valid := true, error_message := "" } := by
    simp only [parse_ciff_file, parse_ciff_aux, parseFixed, exNoTag]
    rfl
  rw [h]
  exact ⟨rfl, rfl, rfl, by decide⟩

/-- C5 (amended): if the record is returned valid and at least one tag
was collected, the stream byte at offset header_size - 1 is a null (it
terminates the last tag); however a header whose tag region is empty,
ending at the caption newline, is accepted with zero tags. -/
theorem ciff_last_header_byte_null (s : ByteStream)
    (h : (parse_ciff_file s).is_valid = true)
    (ht : (parse_ciff_file s).tags ≠ []) :
    s[(parse_ciff_file s).header_size - 1]? = some 0 := by
  obtain ⟨hval, herr, hmagic, hhs, hcs, hhs38, hcseq, hpixlen, hcap, htags, hnf, hslen,
    hbyte⟩ := parse_aux_ok s _ _ (valid_elim s h)
  exact hbyte ht

/-- Witness for the amended C5 at the one-tag stream. -/
theorem ciff_last_header_byte_null_witness :
    ((parse_ciff_file exStream2).is_valid = true ∧
        (parse_ciff_file exStream2).tags ≠ []) ∧
      exStream2[(parse_ciff_file exStream2).header_size - 1]? = some 0 :=
  have h : (parse_ciff_file exStream2).is_valid = true := by
    simp only [parse_ciff_file, parse_ciff_aux, parseFixed, exStream2]
    rfl
  have ht : (parse_ciff_file exStream2).tags ≠ [] := by
    have h2 : (parse_ciff_file exStream2).tags = [['x', Char.ofNat 0]] := by
      simp only [parse_ciff_file, parse_ciff_aux, parseFixed, exStream2]
      rfl
    rw [h2]
    simp
  ⟨⟨h, ht⟩, ciff_last_header_byte_null exStream2 h ht⟩

/-- C10: every tag of a record returned valid is nonempty and contains
exactly one null character, its final one. -/
theorem ciff_tags_single_terminal_null (s : ByteStream)
    (h : (parse_ciff_file s).is_valid = true) :
    ∀ t ∈ (parse_ciff_file s).tags,
      t ≠ [] ∧ t.getLast? = some (Char.ofNat 0) ∧ t.count (Char.ofNat 0) = 1 := by
  obtain ⟨hval, herr, hmagic, hhs, hcs, hhs38, hcseq, hpixlen, hcap, htags, hrest⟩ :=
    parse_aux_ok s _ _ (valid_elim s h)
  intro t ht
  obtain ⟨u, hu, hnu⟩ := htags t ht
  subst hu
  refine ⟨by simp, by simp, ?_⟩
  rw [List.count_append]
  rw [List.count_eq_zero.mpr hnu]
  simp

/-- Witness for C10 at the one-tag stream. -/
theorem ciff_tags_single_terminal_null_witness :
    (parse_ciff_file exStream2).is_valid = true ∧
      ∀ t ∈ (parse_ciff_file exStream2).tags,
        t ≠ [] ∧ t.getLast? = some (Char.ofNat 0) ∧ t.count (Char.ofNat 0) = 1 :=
  have h : (parse_ciff_file exStream2).is_valid = true := by
    simp only [parse_ciff_file, parse_ciff_aux, parseFixed, exStream2]
    rfl
  ⟨h, ciff_tags_single_terminal_null exStream2 h⟩

/-- Reading an 8-byte field at offset `k` with `k + 8 ≤ 36` only looks
at the first 36 bytes of the stream. -/
theorem take8_through_take36 (s : ByteStream) (k : Nat) (hk : k + 8 ≤ 36) :
    (s.drop k).take 8 = ((s.take 36).drop k).take 8 := by
  rw [List.drop_take, List.take_take]
  have hmin : min 8 (36 - k) = 8 := by omega
  rw [hmin]

/-- A valid record pins the stream length to the sum of the two size
fields read from the first 36 bytes. -/
theorem valid_length_eq_header (t : ByteStream)
    (hv : (parse_ciff_file t).is_valid = true) :
    38 ≤ unpackQ ((t.drop 4).take 8) ∧
      t.length = unpackQ ((t.drop 4).take 8) + unpackQ ((t.drop 12).take 8) := by
  obtain ⟨hval, herr, hmagic, hhs, hcs, hhs38, hcseq, hpixlen, hcap, htags, hnf, hslen,
    hb⟩ := parse_aux_ok t _ _ (valid_elim t hv)
  constructor
  · rw [← hhs]; exact hhs38
  · rw [← hhs, ← hcs]; omega

/-- C6: a record is returned valid only when the stream length is
exactly header_size + content_size (every byte consumed, none left);
hence dropping the final byte of a valid stream, or appending any
byte to it, makes the parse invalid. -/
theorem ciff_exact_length_and_boundary (s : ByteStream)
    (h : (parse_ciff_file s).is_valid = true) :
    s.length = (parse_ciff_file s).header_size + (parse_ciff_file s).content_size ∧
      (parse_ciff_file (s.dropLast)).is_valid = false ∧
      ∀ b, (parse_ciff_file (s ++ [b])).is_valid = false := by
  obtain ⟨hval, herr, hmagic, hhs, hcs, hhs38, hcseq, hpixlen, hcap, htags, hnf, hslen,
    hb⟩ := parse_aux_ok s _ _ (valid_elim s h)
  have hlen : s.length = unpackQ ((s.drop 4).take 8) + unpackQ ((s.drop 12).take 8) := by
    rw [← hhs, ← hcs]; omega
  have h38 : 38 ≤ s.length := by
    rw [hhs] at hhs38
    omega
  refine ⟨by omega, ?_, ?_⟩
  · cases hvd : (parse_ciff_file (s.dropLast)).is_valid with
    | false => rfl
    | true =>
      exfalso
      obtain ⟨h38d, hlend⟩ := valid_length_eq_header _ hvd
      have hpre : (s.dropLast).take 36 = s.take 36 := by
        rw [List.dropLast_eq_take, List.take_take]
        have hmin : min 36 (s.length - 1) = 36 := by omega
        rw [hmin]
      have e4 : ((s.dropLast).drop 4).take 8 = (s.drop 4).take 8 := by
        rw [take8_through_take36 _ 4 (by omega), take8_through_take36 s 4 (by omega), hpre]
      have e12 : ((s.dropLast).drop 12).take 8 = (s.drop 12).take 8 := by
        rw [take8_through_take36 _ 12 (by omega), take8_through_take36 s 12 (by omega), hpre]
      rw [e4, e12] at hlend
      have hld : (s.dropLast).length = s.length - 1 := List.length_dropLast s
      omega
  · intro b
    cases hvd : (parse_ciff_file (s ++ [b])).is_valid with
    | false => rfl
    | true =>
      exfalso
      obtain ⟨h38d, hlend⟩ := valid_length_eq_header _ hvd
      have hpre : (s ++ [b]).take 36 = s.take 36 :=
        List.take_append_of_le_length (by omega)
      have e4 : ((s ++ [b]).drop 4).take 8 = (s.drop 4).take 8 := by
        rw [take8_through_take36 _ 4 (by omega), take8_through_take36 s 4 (by omega), hpre]
      have e12 : ((s ++ [b]).drop 12).take 8 = (s.drop 12).take 8 := by
        rw [take8_through_take36 _ 12 (by omega), take8_through_take36 s 12 (by omega), hpre]
      rw [e4, e12] at hlend
      have hla : (s ++ [b]).length = s.length + 1 := by simp
      omega

/-- Witness for C6 at the concrete one-pixel stream. -/
theorem ciff_exact_length_and_boundary_witness :
    (parse_ciff_file exStream2).is_valid = true ∧
      (exStream2.length =
          (parse_ciff_file exStream2).header_size +
            (parse_ciff_file exStream2).content_size ∧
        (parse_ciff_file (exStream2.dropLast)).is_valid = false ∧
        ∀ b, (parse_ciff_file (exStream2 ++ [b])).is_valid = false) :=
  have h : (parse_ciff_file exStream2).is_valid = true := by
    simp only [parse_ciff_file, parse_ciff_aux, parseFixed, exStream2]
    rfl
  ⟨h, ciff_exact_length_and_boundary exStream2 h⟩

/-- C7: with readable fixed fields, a good magic, a header_size of at
least 38 but a content_size different from width*height*3, the parse
stops at the content-size check: invalid record, the content-size
message, exactly 36 bytes consumed, and caption, tags and pixels still
at their empty initial values. -/
theorem ciff_content_mismatch_halts (s : ByteStream)
    (hlen : 36 ≤ s.length)
    (hm : s.take 4 = [67, 73, 70, 70])
    (hhs38 : 38 ≤ unpackQ ((s.drop 4).take 8))
    (hne : unpackQ ((s.drop 12).take 8) ≠
      unpackQ ((s.drop 20).take 8) * unpackQ ((s.drop 28).take 8) * 3) :
    (parse_ciff_file s).is_valid = false ∧
      (parse_ciff_file s).error_message =
        "Invalid image format: content size not equal to width*height*3" ∧
      bytesConsumed s = 36 ∧
      (parse_ciff_file s).caption = [] ∧
      (parse_ciff_file s).tags = [] ∧
      (parse_ciff_file s).pixels = [] := by
  have l4 : ((s.drop 4).take 8).length = 8 := by
    simp only [List.length_take, List.length_drop]
    omega
  have l12 : ((s.drop 12).take 8).length = 8 := by
    simp only [List.length_take, List.length_drop]
    omega
  have l20 : ((s.drop 20).take 8).length = 8 := by
    simp only [List.length_take, List.length_drop]
    omega
  have l28 : ((s.drop 28).take 8).length = 8 := by
    simp only [List.length_take, List.length_drop]
    omega
  have hfix : parseFixed s = .error
      ("Invalid image format: content size not equal to width*height*3",
        { magic := ['C', 'I', 'F', 'F'],
          header_size := unpackQ ((s.drop 4).take 8),
          content_size := unpackQ ((s.drop 12).take 8),
          width := unpackQ ((s.drop 20).take 8),
          height := unpackQ ((s.drop 28).take 8) }, 36) := by
    simp only [parseFixed, hm, List.drop_drop]
    rw [if_neg (by simp), if_pos (by decide : asciiOk [67, 73, 70, 70] = true),
      if_neg (by decide), if_neg (by simp [l4]), if_neg (by omega),
      if_neg (by simp [l12]), if_neg (by simp [l20]), if_neg (by simp [l28]), if_pos hne]
    have hchars : asciiChars [67, 73, 70, 70] = ['C', 'I', 'F', 'F'] := by decide
    rw [hchars]
  have haux : parse_ciff_aux s = .error
      ("Invalid image format: content size not equal to width*height*3",
        { magic := ['C', 'I', 'F', 'F'],
          header_size := unpackQ ((s.drop 4).take 8),
          content_size := unpackQ ((s.drop 12).take 8),
          width := unpackQ ((s.drop 20).take 8),
          height := unpackQ ((s.drop 28).take 8) }, 36) := by
    simp only [parse_ciff_aux, hfix]
  simp [parse_ciff_file, bytesConsumed, haux]

/-- The witness stream for C7: magic CIFF, header_size 38,
content_size 4, width 1, height 1 (mismatched: 4 is not 3). -/
def exMismatch : ByteStream :=
  [67, 73, 70, 70] ++ [38, 0, 0, 0, 0, 0, 0, 0] ++ [4, 0, 0, 0, 0, 0, 0, 0] ++
    [1, 0, 0, 0, 0, 0, 0, 0] ++ [1, 0, 0, 0, 0, 0, 0, 0]

/-- Witness for C7 at the mismatched-content-size stream. -/
theorem ciff_content_mismatch_halts_witness :
    (36 ≤ exMismatch.length ∧
        exMismatch.take 4 = [67, 73, 70, 70] ∧
        38 ≤ unpackQ ((exMismatch.drop 4).take 8) ∧
        unpackQ ((exMismatch.drop 12).take 8) ≠
          unpackQ ((exMismatch.drop 20).take 8) *
            unpackQ ((exMismatch.drop 28).take 8) * 3) ∧
      ((parse_ciff_file exMismatch).is_valid = false ∧
        (parse_ciff_file exMismatch).error_message =
          "Invalid image format: content size not equal to width*height*3" ∧
        bytesConsumed exMismatch = 36 ∧
        (parse_ciff_file exMismatch).caption = [] ∧
        (parse_ciff_file exMismatch).tags = [] ∧
        (parse_ciff_file exMismatch).pixels = []) :=
  ⟨⟨by decide, by decide, by decide, by decide⟩,
    ciff_content_mismatch_halts exMismatch (by decide) (by decide) (by decide) (by decide)⟩

/-- C8: a stream whose first four bytes decode as ASCII but do not
spell CIFF yields an invalid record that still stores the wrong decoded
value in its magic field. -/
theorem ciff_bad_magic_records_value (s : ByteStream)
    (hlen : 4 ≤ s.length)
    (hok : asciiOk (s.take 4) = true)
    (hne : asciiChars (s.take 4) ≠ ['C', 'I', 'F', 'F']) :
    (parse_ciff_file s).is_valid = false ∧
      (parse_ciff_file s).magic = asciiChars (s.take 4) := by
  have h4 : (s.take 4).length = 4 := by
    simp only [List.length_take]
    omega
  have hfix : parseFixed s = .error ("Error parsing magic bytes",
      { magic := asciiChars (s.take 4), is_valid := false }, 4) := by
    simp only [parseFixed]
    rw [if_neg (by simp [h4]), if_pos hok, if_pos hne]
  have haux : parse_ciff_aux s = .error ("Error parsing magic bytes",
      { magic := asciiChars (s.take 4), is_valid := false }, 4) := by
    simp only [parse_ciff_aux, hfix]
  simp [parse_ciff_file, haux]

/-- The witness stream for C8: first four bytes spell DIFF. -/
def exBadMagic : ByteStream := [68, 73, 70, 70]

/-- Witness for C8 at the DIFF stream. -/
theorem ciff_bad_magic_records_value_witness :
    (4 ≤ exBadMagic.length ∧
        asciiOk (exBadMagic.take 4) = true ∧
        asciiChars (exBadMagic.take 4) ≠ ['C', 'I', 'F', 'F']) ∧
      ((parse_ciff_file exBadMagic).is_valid = false ∧
        (parse_ciff_file exBadMagic).magic = asciiChars (exBadMagic.take 4)) :=
  ⟨⟨by decide, by decide, by decide⟩,
    ciff_bad_magic_records_value exBadMagic (by decide) (by decide) (by decide)⟩
